import Mathlib

/-!
Shallow embedding of `src/utils/lazy-loader.js` (markdown-live-preview).

The module keeps two module-level `Map`s, `moduleCache` and
`loadingPromises`, and orchestrates lazy loading through `lazyLoad`:
a cache hit returns immediately, a pending load is joined, otherwise the
factory is invoked, the resulting promise is recorded, and on settlement
the success handler populates the cache and clears the tracker while the
failure handler only clears the tracker.  All map reads and writes happen
synchronously between suspension points of the single-threaded event
loop, so the system is modelled as a state machine whose atomic steps are
the synchronous segment of `lazyLoad` and the two settlement handlers.

The content detectors `hasMermaidContent` and `hasKaTeXContent` are pure
functions over the document text; they are embedded as executable
matchers equivalent to the regular expressions in the source
(`/```mermaid[\s\S]*?```/i` and `/\$\$[\s\S]*?\$\$|\$[^$\n]+\$/g`).
-/

/-! ## Content detectors -/

/-- Case-insensitive prefix match: does `cs` start with the (lowercase)
pattern `ps`?  Models the `i` flag of the mermaid regex. -/
def matchCI : List Char → List Char → Bool
  | [], _ => true
  | _ :: _, [] => false
  | p :: ps, c :: cs => (c.toLower == p) && matchCI ps cs

/-- The backtick character, U+0060. -/
def backtick : Char := Char.ofNat 96

/-- The opening fence of the mermaid regex: three backticks then the
word mermaid (already lowercased for the case-insensitive match). -/
def mermaidFence : List Char :=
  [backtick, backtick, backtick, 'm', 'e', 'r', 'm', 'a', 'i', 'd']

/-- Does the text contain a closing fence (three backticks) anywhere? -/
def hasCloseFence : List Char → Bool
  | [] => false
  | c :: rest =>
    decide (List.take 3 (c :: rest) = [backtick, backtick, backtick])
      || hasCloseFence rest

/-- Scan for an occurrence of the whole pattern
`` ```mermaid[\s\S]*?``` `` (case-insensitive): an opening fence at some
position followed, after its 10 characters, by a closing fence. -/
def scanMermaid : List Char → Bool
  | [] => false
  | c :: rest =>
    (matchCI mermaidFence (c :: rest) && hasCloseFence (List.drop 9 rest))
      || scanMermaid rest

/-- `hasMermaidContent(markdown)` from the source:
`/```mermaid[\s\S]*?```/i.test(markdown)`. -/
def hasMermaidContent (markdown : String) : Bool :=
  scanMermaid markdown.data

/-- After the mandatory first character of `[^$\n]+`: consume further
characters outside `{$, \n}` and succeed on a closing `$`. -/
def afterOne : List Char → Bool
  | [] => false
  | c :: rest =>
    if c = '$' then true else if c = '\n' then false else afterOne rest

/-- Attempt to match `[^$\n]+\$` at the head of the list (the part of the
inline alternative after its opening `$`). -/
def checkBody : List Char → Bool
  | [] => false
  | c :: rest => if c = '$' ∨ c = '\n' then false else afterOne rest

/-- Scan for an occurrence of the inline alternative `\$[^$\n]+\$`
anywhere in the text. -/
def scanInline : List Char → Bool
  | [] => false
  | c :: rest => (if c = '$' then checkBody rest else false) || scanInline rest

/-- Does the text contain `$$` anywhere? -/
def hasDoubleDollar : List Char → Bool
  | '$' :: '$' :: _ => true
  | _ :: rest => hasDoubleDollar rest
  | [] => false

/-- Scan for an occurrence of the block alternative `\$\$[\s\S]*?\$\$`:
an occurrence of `$$` followed, after it, by another `$$`. -/
def scanBlock : List Char → Bool
  | '$' :: '$' :: rest => hasDoubleDollar rest
  | _ :: rest => scanBlock rest
  | [] => false

/-- `hasKaTeXContent(markdown)` from the source:
`/\$\$[\s\S]*?\$\$|\$[^$\n]+\$/g.test(markdown)`. -/
def hasKaTeXContent (markdown : String) : Bool :=
  scanBlock markdown.data || scanInline markdown.data

example : hasMermaidContent "```mermaid\nA->B\n```" = true := by decide
example : hasMermaidContent "```diagram\nA->B\n```" = false := by decide
example : hasMermaidContent "plain paragraph, no markers" = false := by decide
example : hasKaTeXContent "costs $5 and $10 total" = true := by decide
example : hasKaTeXContent "Inline $x^2$ math" = true := by decide
example : hasKaTeXContent "no math here" = false := by decide
example : hasKaTeXContent "a $$b$$ c" = true := by decide

/-! ## Loader state

JavaScript `Map` objects are embedded as association lists in insertion
order: `Map.set` replaces an existing binding in place or appends a new
one at the end, `Map.delete` removes the binding, `Map.get` returns the
bound value, and `Map.keys()` iterates first components in order. -/

/-- `Map.get`: value bound to `k`, if any. -/
def mapGet (m : List (String × Nat)) (k : String) : Option Nat :=
  match m with
  | [] => none
  | (k₁, v) :: rest => if k₁ = k then some v else mapGet rest k

/-- `Map.set`: replace the binding of `k` in place, or append it. -/
def mapSet (m : List (String × Nat)) (k : String) (v : Nat) : List (String × Nat) :=
  match m with
  | [] => [(k, v)]
  | (k₁, v₁) :: rest =>
    if k₁ = k then (k, v) :: rest else (k₁, v₁) :: mapSet rest k v

/-- `Map.delete`: remove the binding of `k`. -/
def mapDelete (m : List (String × Nat)) (k : String) : List (String × Nat) :=
  match m with
  | [] => []
  | (k₁, v) :: rest =>
    if k₁ = k then mapDelete rest k else (k₁, v) :: mapDelete rest k

/-- The module-level state of `lazy-loader.js`.  Resolved module values
and pending promises are identified by natural numbers (`nextPromiseId`
is a ghost counter naming each promise created by a factory invocation,
and `invocationLog` is a ghost log of factory invocations, one entry per
`importFn()` call). -/
structure LoaderState where
  moduleCache : List (String × Nat)
  loadingPromises : List (String × Nat)
  invocationLog : List String
  nextPromiseId : Nat
deriving DecidableEq

/-- The initial module state: both maps empty. -/
def initState : LoaderState :=
  { moduleCache := [], loadingPromises := [], invocationLog := [], nextPromiseId := 0 }

/-- What a caller of `lazyLoad` receives from its synchronous segment:
the cached value, the already-pending promise, or the freshly created
promise of the factory invocation it started. -/
inductive Outcome where
  | cached (v : Nat)
  | joined (pid : Nat)
  | started (pid : Nat)
deriving DecidableEq

/-- Number of factory invocations performed so far for `key`. -/
def invocations (s : LoaderState) (key : String) : Nat :=
  s.invocationLog.count key

/-- The synchronous segment of `lazyLoad(moduleName, importFn)`: return
the cached module if available; else return the existing promise if
already loading; else invoke the factory, record the new promise in
`loadingPromises`, and return it. -/
def lazyLoad (s : LoaderState) (moduleName : String) : LoaderState × Outcome :=
  match mapGet s.moduleCache moduleName with
  | some v => (s, Outcome.cached v)
  | none =>
    match mapGet s.loadingPromises moduleName with
    | some pid => (s, Outcome.joined pid)
    | none =>
      ({ s with
          loadingPromises := mapSet s.loadingPromises moduleName s.nextPromiseId,
          invocationLog := s.invocationLog ++ [moduleName],
          nextPromiseId := s.nextPromiseId + 1 },
        Outcome.started s.nextPromiseId)

/-- The `then` handler of the load promise: on success,
`moduleCache.set(moduleName, module)` then
`loadingPromises.delete(moduleName)`. -/
def onLoadSuccess (s : LoaderState) (moduleName : String) (v : Nat) : LoaderState :=
  { s with
      moduleCache := mapSet s.moduleCache moduleName v,
      loadingPromises := mapDelete s.loadingPromises moduleName }

/-- The `catch` handler of the load promise: on failure,
`loadingPromises.delete(moduleName)` and the error is rethrown to the
awaiting callers; nothing is cached. -/
def onLoadFailure (s : LoaderState) (moduleName : String) : LoaderState :=
  { s with loadingPromises := mapDelete s.loadingPromises moduleName }

/-- `getLoadingStatus()`: the keys of `moduleCache` and of
`loadingPromises`, in iteration order. -/
structure LoadingStatus where
  loaded : List String
  loading : List String
deriving DecidableEq

/-- `getLoadingStatus()` from the source. -/
def getLoadingStatus (s : LoaderState) : LoadingStatus :=
  { loaded := s.moduleCache.map Prod.fst,
    loading := s.loadingPromises.map Prod.fst }

/-- The body of the idle callback of `preloadInBackground(modules)`: for
each entry, the `switch` dispatches `'mermaid'` to `loadMermaid()` and
`'katex'` to `loadKaTeX()` — each of which runs the `lazyLoad` path for
its key — and silently skips every other entry; failures are discarded
by `.catch(() => { })`. -/
def preloadCallback (modules : List String) (s : LoaderState) : LoaderState :=
  modules.foldl
    (fun st m =>
      if m = "mermaid" then (lazyLoad st "mermaid").1
      else if m = "katex" then (lazyLoad st "katex").1
      else st) s

/-- The default argument `modules = ['mermaid', 'katex']`. -/
def defaultPreloadModules : List String := ["mermaid", "katex"]

/-- `preloadInBackground(modules)`: if `requestIdleCallback` exists in
`window`, register a one-shot callback with `{ timeout: 5000 }` whose
body is `preloadCallback modules`; otherwise do nothing.  The returned
value models the registration: the timeout bound and the callback. -/
def preloadInBackground (hasRequestIdleCallback : Bool)
    (modules : List String) : Option (Nat × (LoaderState → LoaderState)) :=
  if hasRequestIdleCallback then some (5000, preloadCallback modules) else none

/-- The mermaid module object as seen by `loadMermaid`: the
`isInitialized` flag it reads and writes, plus a ghost count of how many
times `mermaid.initialize(...)` has been executed. -/
structure MermaidModule where
  isInitialized : Bool
  initCount : Nat
deriving DecidableEq

/-- The post-resolution segment of `loadMermaid()`: if
`!mermaid.default.isInitialized`, run the one-time configuration step
`mermaid.default.initialize(...)` and set `isInitialized = true`;
otherwise do nothing. -/
def mermaidInitStep (m : MermaidModule) : MermaidModule :=
  if m.isInitialized then m
  else { isInitialized := true, initCount := m.initCount + 1 }

/-- `loadMermaid()` called `n` times in sequence on the same resolved
mermaid module object. -/
def iterateMermaidInit : Nat → MermaidModule → MermaidModule
  | 0, m => m
  | n + 1, m => iterateMermaidInit n (mermaidInitStep m)

/-! ## Reachability

All map mutation happens synchronously inside one of three atomic
segments: the synchronous part of `lazyLoad`, the success handler, and
the failure handler.  A settlement handler fires only for a promise that
is still recorded for its key: the key is put into `loadingPromises`
synchronously before control can leave `lazyLoad`, and only the handler
itself removes it. -/

/-- States reachable from `s` by any interleaving of callers
(foreground or preload — both enter through `lazyLoad`) and settlement
handlers. -/
inductive ReachFrom (s : LoaderState) : LoaderState → Prop where
  | refl : ReachFrom s s
  | request (t : LoaderState) (k : String) :
      ReachFrom s t → ReachFrom s (lazyLoad t k).1
  | success (t : LoaderState) (k : String) (v : Nat) :
      ReachFrom s t → mapGet t.loadingPromises k ≠ none →
      ReachFrom s (onLoadSuccess t k v)
  | failure (t : LoaderState) (k : String) :
      ReachFrom s t → mapGet t.loadingPromises k ≠ none →
      ReachFrom s (onLoadFailure t k)

/-- States reachable from the initial module state. -/
def Reachable (s : LoaderState) : Prop :=
  ReachFrom initState s

/-- `n` back-to-back `lazyLoad` calls for the same key, all within one
synchronous stretch (no settlement in between), collecting each caller
outcome. -/
def requestN (s : LoaderState) (k : String) : Nat → LoaderState × List Outcome
  | 0 => (s, [])
  | n + 1 =>
    let p := lazyLoad s k
    let q := requestN p.1 k n
    (q.1, p.2 :: q.2)

/-! ## Map lemmas -/

theorem mapGet_mapSet_self (m : List (String × Nat)) (k : String) (v : Nat) :
    mapGet (mapSet m k v) k = some v := by
  induction m with
  | nil => simp [mapGet, mapSet]
  | cons p rest ih =>
    obtain ⟨k₁, v₁⟩ := p
    by_cases h : k₁ = k
    · subst h; simp [mapSet, mapGet]
    · simp [mapSet, mapGet, h, ih]

theorem mapGet_mapSet_ne (m : List (String × Nat)) (k a : String) (v : Nat)
    (h : a ≠ k) : mapGet (mapSet m k v) a = mapGet m a := by
  induction m with
  | nil => simp [mapGet, mapSet, Ne.symm h]
  | cons p rest ih =>
    obtain ⟨k₁, v₁⟩ := p
    by_cases hp : k₁ = k
    · subst hp; simp [mapSet, mapGet, Ne.symm h]
    · simp [mapSet, mapGet, hp, ih]

theorem mapGet_mapDelete_self (m : List (String × Nat)) (k : String) :
    mapGet (mapDelete m k) k = none := by
  induction m with
  | nil => simp [mapGet, mapDelete]
  | cons p rest ih =>
    obtain ⟨k₁, v₁⟩ := p
    by_cases hp : k₁ = k
    · simpa [mapDelete, hp] using ih
    · simpa [mapDelete, mapGet, hp] using ih

theorem mapGet_mapDelete_ne (m : List (String × Nat)) (k a : String)
    (h : a ≠ k) : mapGet (mapDelete m k) a = mapGet m a := by
  induction m with
  | nil => simp [mapGet, mapDelete]
  | cons p rest ih =>
    obtain ⟨k₁, v₁⟩ := p
    by_cases hp : k₁ = k
    · subst hp; simp [mapDelete, mapGet, Ne.symm h, ih]
    · simp [mapDelete, mapGet, hp, ih]

theorem mem_keys_iff_mapGet (m : List (String × Nat)) (k : String) :
    k ∈ m.map Prod.fst ↔ mapGet m k ≠ none := by
  induction m with
  | nil => simp [mapGet]
  | cons p rest ih =>
    obtain ⟨k₁, v₁⟩ := p
    by_cases hp : k₁ = k
    · subst hp; simp [mapGet]
    · simp [mapGet, hp, Ne.symm hp, ih]

theorem keys_mapSet (m : List (String × Nat)) (k : String) (v : Nat) :
    (mapSet m k v).map Prod.fst =
      if mapGet m k = none then m.map Prod.fst ++ [k] else m.map Prod.fst := by
  induction m with
  | nil => simp [mapGet, mapSet]
  | cons p rest ih =>
    obtain ⟨k₁, v₁⟩ := p
    by_cases hp : k₁ = k
    · subst hp; simp [mapSet, mapGet]
    · simp only [mapSet, mapGet, if_neg hp, List.map_cons, ih]
      by_cases hg : mapGet rest k = none
      · simp [hg]
      · simp [hg]

theorem keys_mapSet_nodup (m : List (String × Nat)) (k : String) (v : Nat)
    (h : (m.map Prod.fst).Nodup) : ((mapSet m k v).map Prod.fst).Nodup := by
  rw [keys_mapSet]
  by_cases hg : mapGet m k = none
  · rw [if_pos hg]
    rw [List.nodup_append]
    refine ⟨h, List.nodup_singleton k, ?_⟩
    intro a ha hb
    rw [List.mem_singleton] at hb
    subst hb
    exact (mem_keys_iff_mapGet m a).1 ha hg
  · rw [if_neg hg]; exact h

theorem mapDelete_sublist (m : List (String × Nat)) (k : String) :
    (mapDelete m k).Sublist m := by
  induction m with
  | nil => simp [mapDelete]
  | cons p rest ih =>
    obtain ⟨k₁, v₁⟩ := p
    by_cases hp : k₁ = k
    · simpa [mapDelete, hp] using List.Sublist.cons (k₁, v₁) ih
    · simpa [mapDelete, hp] using List.Sublist.cons₂ (k₁, v₁) ih

theorem keys_mapDelete_nodup (m : List (String × Nat)) (k : String)
    (h : (m.map Prod.fst).Nodup) : ((mapDelete m k).map Prod.fst).Nodup :=
  List.Nodup.sublist (List.Sublist.map Prod.fst (mapDelete_sublist m k)) h

theorem mapGet_mapDelete_none (m : List (String × Nat)) (k a : String)
    (h : mapGet m a = none) : mapGet (mapDelete m k) a = none := by
  by_cases ha : a = k
  · exact ha ▸ mapGet_mapDelete_self m k
  · rw [mapGet_mapDelete_ne m k a ha]; exact h

/-! ## Well-formedness of the loader state -/

/-- The structural invariant of the two maps: no duplicate keys in
either map, and no key is both cached and in flight. -/
def WF (s : LoaderState) : Prop :=
  (s.moduleCache.map Prod.fst).Nodup ∧
  (s.loadingPromises.map Prod.fst).Nodup ∧
  ∀ k, mapGet s.moduleCache k = none ∨ mapGet s.loadingPromises k = none

theorem wf_initState : WF initState := by
  refine ⟨by simp [initState], by simp [initState], fun k => ?_⟩
  left; simp [initState, mapGet]

theorem lazyLoad_cache_hit (s : LoaderState) (k : String) (v : Nat)
    (h : mapGet s.moduleCache k = some v) :
    lazyLoad s k = (s, Outcome.cached v) := by
  simp [lazyLoad, h]

theorem lazyLoad_join (s : LoaderState) (k : String) (pid : Nat)
    (hc : mapGet s.moduleCache k = none)
    (hl : mapGet s.loadingPromises k = some pid) :
    lazyLoad s k = (s, Outcome.joined pid) := by
  simp [lazyLoad, hc, hl]

theorem lazyLoad_start (s : LoaderState) (k : String)
    (hc : mapGet s.moduleCache k = none)
    (hl : mapGet s.loadingPromises k = none) :
    lazyLoad s k =
      ({ s with
          loadingPromises := mapSet s.loadingPromises k s.nextPromiseId,
          invocationLog := s.invocationLog ++ [k],
          nextPromiseId := s.nextPromiseId + 1 },
        Outcome.started s.nextPromiseId) := by
  simp [lazyLoad, hc, hl]

theorem lazyLoad_moduleCache (s : LoaderState) (k : String) :
    (lazyLoad s k).1.moduleCache = s.moduleCache := by
  unfold lazyLoad
  split
  · rfl
  · split <;> rfl

theorem invocations_lazyLoad_ne (s : LoaderState) (k a : String) (h : ¬k = a) :
    invocations (lazyLoad s k).1 a = invocations s a := by
  unfold lazyLoad
  split
  · rfl
  · split
    · rfl
    · simp [invocations, List.count_append, List.count_cons, h]

theorem wf_lazyLoad (s : LoaderState) (k : String) (h : WF s) :
    WF (lazyLoad s k).1 := by
  cases hc : mapGet s.moduleCache k with
  | some v => rw [lazyLoad_cache_hit s k v hc]; exact h
  | none =>
    cases hl : mapGet s.loadingPromises k with
    | some pid => rw [lazyLoad_join s k pid hc hl]; exact h
    | none =>
      rw [lazyLoad_start s k hc hl]
      obtain ⟨h1, h2, h3⟩ := h
      refine ⟨h1, keys_mapSet_nodup _ k _ h2, fun a => ?_⟩
      by_cases ha : a = k
      · subst ha; left; exact hc
      · rcases h3 a with h4 | h4
        · left; exact h4
        · right
          show mapGet (mapSet s.loadingPromises k s.nextPromiseId) a = none
          rw [mapGet_mapSet_ne _ k a _ ha]; exact h4

theorem wf_onLoadSuccess (s : LoaderState) (k : String) (v : Nat)
    (h : WF s) : WF (onLoadSuccess s k v) := by
  obtain ⟨h1, h2, h3⟩ := h
  refine ⟨keys_mapSet_nodup _ k v h1, keys_mapDelete_nodup _ k h2, fun a => ?_⟩
  by_cases ha : a = k
  · subst ha; right; exact mapGet_mapDelete_self _ a
  · rcases h3 a with h4 | h4
    · left
      show mapGet (mapSet s.moduleCache k v) a = none
      rw [mapGet_mapSet_ne _ k a v ha]; exact h4
    · right; exact mapGet_mapDelete_none _ k a h4

theorem wf_onLoadFailure (s : LoaderState) (k : String) (h : WF s) :
    WF (onLoadFailure s k) := by
  obtain ⟨h1, h2, h3⟩ := h
  refine ⟨h1, keys_mapDelete_nodup _ k h2, fun a => ?_⟩
  rcases h3 a with h4 | h4
  · left; exact h4
  · right; exact mapGet_mapDelete_none _ k a h4

theorem wf_reachFrom (s t : LoaderState) (h : WF s) (hr : ReachFrom s t) :
    WF t := by
  induction hr with
  | refl => exact h
  | request t₁ k₁ hsub ih => exact wf_lazyLoad t₁ k₁ ih
  | success t₁ k₁ v₁ hsub hp ih => exact wf_onLoadSuccess t₁ k₁ v₁ ih
  | failure t₁ k₁ hsub hp ih => exact wf_onLoadFailure t₁ k₁ ih

theorem reachable_wf (s : LoaderState) (h : Reachable s) : WF s :=
  wf_reachFrom initState s wf_initState h

/-- A successfully cached entry survives every later step unchanged, and
the factory for its key is never invoked again. -/
theorem cache_persist (s t : LoaderState) (k : String) (v : Nat)
    (hwf : WF s) (hv : mapGet s.moduleCache k = some v) (hr : ReachFrom s t) :
    mapGet t.moduleCache k = some v ∧ invocations t k = invocations s k := by
  induction hr with
  | refl => exact ⟨hv, rfl⟩
  | request t₁ k₁ hsub ih =>
    refine ⟨by rw [lazyLoad_moduleCache]; exact ih.1, ?_⟩
    by_cases hk : k₁ = k
    · subst hk
      rw [lazyLoad_cache_hit t₁ k₁ v ih.1]
      exact ih.2
    · rw [invocations_lazyLoad_ne t₁ k₁ k hk]; exact ih.2
  | success t₁ k₁ v₁ hsub hp ih =>
    have hwft : WF t₁ := wf_reachFrom s t₁ hwf hsub
    have hne : k₁ ≠ k := by
      intro e
      subst e
      rcases hwft.2.2 k₁ with h4 | h4
      · rw [ih.1] at h4; cases h4
      · exact hp h4
    refine ⟨?_, ih.2⟩
    show mapGet (mapSet t₁.moduleCache k₁ v₁) k = some v
    rw [mapGet_mapSet_ne _ k₁ k v₁ (Ne.symm hne)]
    exact ih.1
  | failure t₁ k₁ hsub hp ih => exact ⟨ih.1, ih.2⟩

/-- While a key is cached, no pending load for it can exist. -/
theorem cached_no_pending (s : LoaderState) (k : String) (v : Nat)
    (hwf : WF s) (hv : mapGet s.moduleCache k = some v) :
    mapGet s.loadingPromises k = none := by
  rcases hwf.2.2 k with h | h
  · rw [hv] at h; cases h
  · exact h

/-- Joining callers: while a load for `k` is pending and nothing is
cached, every further `lazyLoad` call for `k` leaves the state unchanged
and receives the same shared promise. -/
theorem requestN_joined (s : LoaderState) (k : String) (pid : Nat) (n : Nat)
    (hc : mapGet s.moduleCache k = none)
    (hl : mapGet s.loadingPromises k = some pid) :
    requestN s k n = (s, List.replicate n (Outcome.joined pid)) := by
  induction n with
  | zero => simp [requestN]
  | succ m ih =>
    simp [requestN, lazyLoad_join s k pid hc hl, ih, List.replicate_succ]

/-! ## Detector lemmas -/

theorem afterOne_append (bs post : List Char)
    (h : ∀ c ∈ bs, c ≠ '$' ∧ c ≠ '\n') :
    afterOne (bs ++ '$' :: post) = true := by
  induction bs with
  | nil => simp [afterOne]
  | cons c rest ih =>
    have hc := h c (by simp)
    rw [List.cons_append]
    simp only [afterOne, if_neg hc.1, if_neg hc.2]
    exact ih (fun x hx => h x (by simp [hx]))

theorem checkBody_append (body post : List Char) (hne : body ≠ [])
    (h : ∀ c ∈ body, c ≠ '$' ∧ c ≠ '\n') :
    checkBody (body ++ '$' :: post) = true := by
  cases body with
  | nil => cases hne rfl
  | cons b bs =>
    have hb := h b (by simp)
    rw [List.cons_append]
    simp only [checkBody]
    rw [if_neg (by simp [hb.1, hb.2])]
    exact afterOne_append bs post (fun x hx => h x (by simp [hx]))

theorem scanInline_append_right (pre rest : List Char)
    (h : scanInline rest = true) : scanInline (pre ++ rest) = true := by
  induction pre with
  | nil => simpa using h
  | cons c cs ih => simp [scanInline, ih]

/-! ## Sample states used by the witnesses -/

/-- The state after one foreground request for mermaid from the initial
state: a single in-flight load. -/
def loadingSample : LoaderState := (lazyLoad initState "mermaid").1

/-- The state after that single mermaid load settles successfully with
module value `7`. -/
def loadedSample : LoaderState := onLoadSuccess loadingSample "mermaid" 7

theorem loadingSample_reachable : Reachable loadingSample :=
  ReachFrom.request initState "mermaid" ReachFrom.refl

theorem loadedSample_reachable : Reachable loadedSample :=
  ReachFrom.success loadingSample "mermaid" 7 loadingSample_reachable (by decide)

/-! ## Claims -/

/-- C4: in every reachable state, for any capability key at most one of
a cache entry and a pending in-flight record exists — never both at the
same time — and the in-flight tracker never holds two pending records
for the same key. -/
theorem cache_tracker_exclusive (s : LoaderState) (h : Reachable s) :
    (∀ k, mapGet s.moduleCache k = none ∨ mapGet s.loadingPromises k = none) ∧
    (s.loadingPromises.map Prod.fst).Nodup := by
  have hwf := reachable_wf s h
  exact ⟨hwf.2.2, hwf.2.1⟩

theorem cache_tracker_exclusive_witness :
    (mapGet loadingSample.moduleCache "mermaid" = none ∨
      mapGet loadingSample.loadingPromises "mermaid" = none) ∧
    (loadingSample.loadingPromises.map Prod.fst).Nodup :=
  ⟨(cache_tracker_exclusive loadingSample loadingSample_reachable).1 "mermaid",
   (cache_tracker_exclusive loadingSample loadingSample_reachable).2⟩

/-- C2: once a load for a key has succeeded, every subsequent
`lazyLoad` call for that key — in any later reachable state — returns
the cached value immediately without changing the state, and the
factory is never invoked again for that key (the invocation log for the
key stays frozen and the call itself appends nothing). -/
theorem memoized_requests (s t : LoaderState) (k : String) (v : Nat)
    (hs : Reachable s) (hv : mapGet s.moduleCache k = some v)
    (ht : ReachFrom s t) :
    lazyLoad t k = (t, Outcome.cached v) ∧
    invocations t k = invocations s k ∧
    (lazyLoad t k).1.invocationLog = t.invocationLog := by
  have hwf := reachable_wf s hs
  have hp := cache_persist s t k v hwf hv ht
  refine ⟨lazyLoad_cache_hit t k v hp.1, hp.2, ?_⟩
  rw [lazyLoad_cache_hit t k v hp.1]

theorem memoized_requests_witness :
    lazyLoad loadedSample "mermaid" = (loadedSample, Outcome.cached 7) ∧
    invocations loadedSample "mermaid" = invocations loadedSample "mermaid" ∧
    (lazyLoad loadedSample "mermaid").1.invocationLog =
      loadedSample.invocationLog :=
  memoized_requests loadedSample loadedSample "mermaid" 7
    loadedSample_reachable (by decide) ReachFrom.refl

/-- C3: when a factory invocation for a pending key fails, the failure
handler leaves no cache entry and no in-flight record for the key (and
touches the cache of no key at all — the failure is never cached), and
the next `lazyLoad` call for the key starts a fresh factory invocation,
observable as a second invocation-log entry. -/
theorem retry_fresh_after_failure (s : LoaderState) (k : String)
    (hs : Reachable s) (hp : mapGet s.loadingPromises k ≠ none) :
    mapGet (onLoadFailure s k).moduleCache k = none ∧
    mapGet (onLoadFailure s k).loadingPromises k = none ∧
    (onLoadFailure s k).moduleCache = s.moduleCache ∧
    (lazyLoad (onLoadFailure s k) k).2 =
      Outcome.started (onLoadFailure s k).nextPromiseId ∧
    invocations (lazyLoad (onLoadFailure s k) k).1 k = invocations s k + 1 := by
  have hwf := reachable_wf s hs
  have hc : mapGet s.moduleCache k = none := by
    rcases hwf.2.2 k with h | h
    · exact h
    · exact absurd h hp
  have hc2 : mapGet (onLoadFailure s k).moduleCache k = none := hc
  have hl2 : mapGet (onLoadFailure s k).loadingPromises k = none :=
    mapGet_mapDelete_self _ k
  have hstart := lazyLoad_start (onLoadFailure s k) k hc2 hl2
  refine ⟨hc2, hl2, rfl, ?_, ?_⟩
  · rw [hstart]
  · rw [hstart]
    simp [invocations, onLoadFailure, List.count_append, List.count_cons]

theorem retry_fresh_after_failure_witness :
    mapGet (onLoadFailure loadingSample "mermaid").moduleCache "mermaid" = none ∧
    mapGet (onLoadFailure loadingSample "mermaid").loadingPromises "mermaid" = none ∧
    (onLoadFailure loadingSample "mermaid").moduleCache =
      loadingSample.moduleCache ∧
    (lazyLoad (onLoadFailure loadingSample "mermaid") "mermaid").2 =
      Outcome.started (onLoadFailure loadingSample "mermaid").nextPromiseId ∧
    invocations (lazyLoad (onLoadFailure loadingSample "mermaid") "mermaid").1
      "mermaid" = invocations loadingSample "mermaid" + 1 :=
  retry_fresh_after_failure loadingSample "mermaid"
    loadingSample_reachable (by decide)

/-- C5: `getLoadingStatus` lists a key under `loading` exactly while an
in-flight record for it exists and under `loaded` exactly while a cache
entry for it exists — never both at once; a key enters the `loading`
list at the moment a `lazyLoad` call starts its factory, moves to the
`loaded` list when the success handler runs, and leaves the `loading`
list when either settlement handler runs. -/
theorem loading_status_accurate (s : LoaderState) (k : String)
    (h : Reachable s) :
    (k ∈ (getLoadingStatus s).loading ↔ mapGet s.loadingPromises k ≠ none) ∧
    (k ∈ (getLoadingStatus s).loaded ↔ mapGet s.moduleCache k ≠ none) ∧
    ¬(k ∈ (getLoadingStatus s).loading ∧ k ∈ (getLoadingStatus s).loaded) ∧
    (∀ pid, (lazyLoad s k).2 = Outcome.started pid →
      k ∈ (getLoadingStatus (lazyLoad s k).1).loading) ∧
    (∀ v, k ∈ (getLoadingStatus (onLoadSuccess s k v)).loaded ∧
      k ∉ (getLoadingStatus (onLoadSuccess s k v)).loading) ∧
    k ∉ (getLoadingStatus (onLoadFailure s k)).loading := by
  have hwf := reachable_wf s h
  simp only [getLoadingStatus, onLoadSuccess, onLoadFailure]
  refine ⟨mem_keys_iff_mapGet _ k, mem_keys_iff_mapGet _ k, ?_, ?_, ?_, ?_⟩
  · rintro ⟨h1, h2⟩
    rw [mem_keys_iff_mapGet] at h1 h2
    rcases hwf.2.2 k with h3 | h3
    · exact h2 h3
    · exact h1 h3
  · intro pid hpid
    cases hc : mapGet s.moduleCache k with
    | some v => rw [lazyLoad_cache_hit s k v hc] at hpid; simp at hpid
    | none =>
      cases hl : mapGet s.loadingPromises k with
      | some q => rw [lazyLoad_join s k q hc hl] at hpid; simp at hpid
      | none =>
        rw [lazyLoad_start s k hc hl]
        show k ∈ (mapSet s.loadingPromises k s.nextPromiseId).map Prod.fst
        rw [mem_keys_iff_mapGet, mapGet_mapSet_self]
        simp
  · intro v
    constructor
    · rw [mem_keys_iff_mapGet, mapGet_mapSet_self]
      simp
    · rw [mem_keys_iff_mapGet, mapGet_mapDelete_self]
      simp
  · rw [mem_keys_iff_mapGet, mapGet_mapDelete_self]
    simp

theorem loading_status_accurate_witness :
    ("mermaid" ∈ (getLoadingStatus loadingSample).loading ↔
      mapGet loadingSample.loadingPromises "mermaid" ≠ none) ∧
    ¬("mermaid" ∈ (getLoadingStatus loadingSample).loading ∧
      "mermaid" ∈ (getLoadingStatus loadingSample).loaded) ∧
    ("mermaid" ∈
      (getLoadingStatus (onLoadSuccess loadingSample "mermaid" 7)).loaded ∧
      "mermaid" ∉
        (getLoadingStatus (onLoadSuccess loadingSample "mermaid" 7)).loading) ∧
    "mermaid" ∉ (getLoadingStatus (onLoadFailure loadingSample "mermaid")).loading :=
  ⟨(loading_status_accurate loadingSample "mermaid" loadingSample_reachable).1,
   (loading_status_accurate loadingSample "mermaid" loadingSample_reachable).2.2.1,
   (loading_status_accurate loadingSample "mermaid"
      loadingSample_reachable).2.2.2.2.1 7,
   (loading_status_accurate loadingSample "mermaid"
      loadingSample_reachable).2.2.2.2.2⟩

/-- C8: a cache entry, once present, survives every later step
unchanged (never replaced, overwritten, or removed); while it exists no
pending load for its key can exist — so the success handler, the only
operation that writes the cache, can never run for that key again — and
neither `lazyLoad` itself nor the failure handler ever writes the
cache. -/
theorem moduleCache_write_once (s t : LoaderState)
    (hs : Reachable s) (ht : ReachFrom s t) :
    (∀ k v, mapGet s.moduleCache k = some v → mapGet t.moduleCache k = some v) ∧
    (∀ k v, mapGet t.moduleCache k = some v →
      mapGet t.loadingPromises k = none) ∧
    (∀ k, (lazyLoad t k).1.moduleCache = t.moduleCache) ∧
    (∀ k, (onLoadFailure t k).moduleCache = t.moduleCache) := by
  have hwf := reachable_wf s hs
  have hwft := wf_reachFrom s t hwf ht
  exact ⟨fun k v hv => (cache_persist s t k v hwf hv ht).1,
    fun k v hv => cached_no_pending t k v hwft hv,
    fun k => lazyLoad_moduleCache t k,
    fun k => rfl⟩

theorem moduleCache_write_once_witness :
    mapGet (onLoadFailure (lazyLoad loadedSample "katex").1
      "katex").moduleCache "mermaid" = some 7 ∧
    mapGet (onLoadFailure (lazyLoad loadedSample "katex").1
      "katex").loadingPromises "mermaid" = none :=
  ⟨(moduleCache_write_once loadedSample
      (onLoadFailure (lazyLoad loadedSample "katex").1 "katex")
      loadedSample_reachable
      (ReachFrom.failure (lazyLoad loadedSample "katex").1 "katex"
        (ReachFrom.request loadedSample "katex" ReachFrom.refl)
        (by decide))).1 "mermaid" 7 (by decide),
   (moduleCache_write_once loadedSample
      (onLoadFailure (lazyLoad loadedSample "katex").1 "katex")
      loadedSample_reachable
      (ReachFrom.failure (lazyLoad loadedSample "katex").1 "katex"
        (ReachFrom.request loadedSample "katex" ReachFrom.refl)
        (by decide))).2.1 "mermaid" 7 (by decide)⟩

/-- C1: starting from any state in which a key is unloaded (no cache
entry and no in-flight record), `n ≥ 1` back-to-back `lazyLoad` calls
for that key perform exactly one factory invocation; the first caller
starts the shared promise and every other caller joins that same
promise, so all observe the same eventual resolution.  The idle
scheduler enters through the same path: its preload of mermaid followed
by a foreground request still yields a single invocation, with the
foreground caller joining the scheduler's promise. -/
theorem dedup_concurrent_requests (s : LoaderState) (k : String) (n : Nat)
    (hc : mapGet s.moduleCache k = none)
    (hl : mapGet s.loadingPromises k = none)
    (hn : 0 < n) :
    invocations (requestN s k n).1 k = invocations s k + 1 ∧
    (requestN s k n).2 =
      Outcome.started s.nextPromiseId ::
        List.replicate (n - 1) (Outcome.joined s.nextPromiseId) ∧
    invocations
      (lazyLoad (preloadCallback ["mermaid"] initState) "mermaid").1
      "mermaid" = 1 ∧
    (lazyLoad (preloadCallback ["mermaid"] initState) "mermaid").2 =
      Outcome.joined 0 := by
  obtain ⟨m, rfl⟩ : ∃ m, n = m + 1 := ⟨n - 1, (Nat.succ_pred_eq_of_pos hn).symm⟩
  have hstart := lazyLoad_start s k hc hl
  have hc1 : mapGet (lazyLoad s k).1.moduleCache k = none := by
    rw [lazyLoad_moduleCache]; exact hc
  have hl1 : mapGet (lazyLoad s k).1.loadingPromises k = some s.nextPromiseId := by
    rw [hstart]; exact mapGet_mapSet_self _ k _
  have hjoin := requestN_joined (lazyLoad s k).1 k s.nextPromiseId m hc1 hl1
  have hreq : requestN s k (m + 1) =
      ((lazyLoad s k).1,
        (lazyLoad s k).2 :: List.replicate m (Outcome.joined s.nextPromiseId)) := by
    simp only [requestN]
    rw [hjoin]
  refine ⟨?_, ?_, by decide, by decide⟩
  · rw [hreq, hstart]
    simp [invocations, List.count_append, List.count_cons]
  · rw [hreq, hstart]
    simp

theorem dedup_concurrent_requests_witness :
    invocations (requestN initState "mermaid" 3).1 "mermaid" =
      invocations initState "mermaid" + 1 ∧
    (requestN initState "mermaid" 3).2 =
      Outcome.started initState.nextPromiseId ::
        List.replicate 2 (Outcome.joined initState.nextPromiseId) ∧
    invocations
      (lazyLoad (preloadCallback ["mermaid"] initState) "mermaid").1
      "mermaid" = 1 ∧
    (lazyLoad (preloadCallback ["mermaid"] initState) "mermaid").2 =
      Outcome.joined 0 :=
  dedup_concurrent_requests initState "mermaid" 3 (by decide) (by decide)
    (by decide)

/-- Unfolding of the preload callback: each listed module is either
dispatched to the standard `lazyLoad` path (for the two recognized
modules) or skipped. -/
theorem preloadCallback_eq (mods : List String) (s : LoaderState) :
    preloadCallback mods s =
      mods.foldl
        (fun st m =>
          if m = "mermaid" ∨ m = "katex" then (lazyLoad st m).1 else st) s := by
  induction mods generalizing s with
  | nil => rfl
  | cons m rest ih =>
    have step : preloadCallback (m :: rest) s = preloadCallback rest
        (if m = "mermaid" then (lazyLoad s "mermaid").1
         else if m = "katex" then (lazyLoad s "katex").1 else s) := rfl
    rw [step, ih, List.foldl_cons]
    congr 1
    by_cases h1 : m = "mermaid"
    · subst h1; simp
    · by_cases h2 : m = "katex"
      · subst h2; simp
      · simp [h1, h2]

/-- C7 (amended): when the runtime exposes `requestIdleCallback`,
`preloadInBackground(modules)` registers a one-shot callback with a
bounded 5000 ms wait whose body routes every *recognized* key of the
set (`"mermaid"` and `"katex"`) through the standard `lazyLoad` path,
exactly as a normal caller would, and silently skips every other key;
without the facility nothing is registered. -/
theorem schedulePreload_registration :
    (∀ mods, preloadInBackground true mods = some (5000, preloadCallback mods)) ∧
    (∀ mods, preloadInBackground false mods = none) ∧
    (∀ mods s, preloadCallback mods s =
      mods.foldl
        (fun st m =>
          if m = "mermaid" ∨ m = "katex" then (lazyLoad st m).1 else st) s) :=
  ⟨fun _ => rfl, fun _ => rfl, fun mods s => preloadCallback_eq mods s⟩

/-- C7 counterexample: the callback registered by
`preloadInBackground(["html2pdf"])` does *not* trigger the load path
for the key `"html2pdf"` — the state is left untouched and no factory
invocation happens — although a normal `lazyLoad` caller for the same
key would start a load. -/
theorem preload_skips_unregistered_key :
    preloadCallback ["html2pdf"] initState = initState ∧
    invocations (preloadCallback ["html2pdf"] initState) "html2pdf" = 0 ∧
    (lazyLoad initState "html2pdf").1 ≠ initState ∧
    (lazyLoad initState "html2pdf").2 = Outcome.started 0 := by
  refine ⟨rfl, rfl, ?_, rfl⟩
  decide

/-- C6 counterexample: on the literal input of the claim — a fenced
code block tagged `diagram` — the diagram detector returns `false`: the
source regex only recognizes fences tagged `mermaid`. -/
theorem diagram_fence_not_detected :
    hasMermaidContent "```diagram\nA->B\n```" = false := by decide

/-- C6 (amended): the diagram detector `hasMermaidContent` returns
`true` on the literal input text consisting of a fenced code block
tagged `mermaid` with body `A->B`. -/
theorem mermaid_fence_detected :
    hasMermaidContent "```mermaid\nA->B\n```" = true := by decide

/-- C9: the one-time configuration side effect inside the mermaid
factory is guarded by the `isInitialized` flag: any number of
`loadMermaid` resolutions on the same module object run the
configuration step at most once — once the flag is set the step is a
no-op, and from a fresh module the step runs exactly once as soon as
the factory has resolved at least once. -/
theorem mermaid_init_guard (n : Nat) (m : MermaidModule) :
    (iterateMermaidInit n m).initCount ≤ m.initCount + 1 ∧
    (m.isInitialized = true → iterateMermaidInit n m = m) ∧
    (iterateMermaidInit n { isInitialized := false, initCount := 0 }).initCount ≤ 1 ∧
    (1 ≤ n → iterateMermaidInit n { isInitialized := false, initCount := 0 } =
      { isInitialized := true, initCount := 1 }) := by
  have hfix : ∀ (p : Nat) (w : MermaidModule), w.isInitialized = true →
      iterateMermaidInit p w = w := by
    intro p
    induction p with
    | zero => intro w _; rfl
    | succ q ih =>
      intro w hw
      show iterateMermaidInit q (mermaidInitStep w) = w
      rw [show mermaidInitStep w = w from by simp [mermaidInitStep, hw]]
      exact ih w hw
  have hrun : ∀ (p : Nat) (w : MermaidModule), w.isInitialized = false →
      iterateMermaidInit (p + 1) w =
        { isInitialized := true, initCount := w.initCount + 1 } := by
    intro p w hw
    show iterateMermaidInit p (mermaidInitStep w) = _
    rw [show mermaidInitStep w =
        { isInitialized := true, initCount := w.initCount + 1 } from by
      simp [mermaidInitStep, hw]]
    exact hfix p _ rfl
  refine ⟨?_, fun hm => hfix n m hm, ?_, ?_⟩
  · cases hm : m.isInitialized with
    | true => rw [hfix n m hm]; exact Nat.le_succ _
    | false =>
      cases n with
      | zero => exact Nat.le_succ _
      | succ q => rw [hrun q m hm]
  · cases n with
    | zero => exact Nat.zero_le _
    | succ q => rw [hrun q _ rfl]
  · intro hn
    cases n with
    | zero => cases hn
    | succ q => exact hrun q _ rfl

theorem mermaid_init_guard_witness :
    iterateMermaidInit 3 { isInitialized := true, initCount := 5 } =
      { isInitialized := true, initCount := 5 } ∧
    (iterateMermaidInit 3 { isInitialized := false, initCount := 0 }).initCount ≤ 1 ∧
    iterateMermaidInit 3 { isInitialized := false, initCount := 0 } =
      { isInitialized := true, initCount := 1 } :=
  ⟨(mermaid_init_guard 3 ⟨true, 5⟩).2.1 rfl,
   (mermaid_init_guard 3 ⟨false, 0⟩).2.2.1,
   (mermaid_init_guard 3 ⟨false, 0⟩).2.2.2 (by decide)⟩

/-- C10: any text containing, on a single line, a dollar sign followed
by one or more characters that are neither `$` nor a newline and then
another dollar sign — e.g. ordinary prose mentioning two dollar amounts
— is reported by the math detector as requiring the math engine: the
inline alternative `\$[^$\n]+\$` of the source regex matches it. -/
theorem hasKaTeX_currency (pre body post : List Char)
    (hne : body ≠ [])
    (hok : ∀ c ∈ body, c ≠ '$' ∧ c ≠ '\n') :
    hasKaTeXContent (String.mk (pre ++ '$' :: (body ++ '$' :: post))) = true := by
  have h1 : scanInline (pre ++ '$' :: (body ++ '$' :: post)) = true := by
    apply scanInline_append_right
    simp [scanInline, checkBody_append body post hne hok]
  show (scanBlock (pre ++ '$' :: (body ++ '$' :: post)) ||
      scanInline (pre ++ '$' :: (body ++ '$' :: post))) = true
  rw [h1, Bool.or_true]

theorem hasKaTeX_currency_witness :
    hasKaTeXContent "costs $5 and $10 total" = true := by
  have h := hasKaTeX_currency "costs ".data "5 and ".data "10 total".data
    (by decide) (by decide)
  have e : String.mk ("costs ".data ++ '$' :: ("5 and ".data ++ '$' :: "10 total".data)) =
      "costs $5 and $10 total" := by decide
  rw [e] at h
  exact h

